import Mathlib

/-!
# Supervisor of a single shell command (`src/main.go`)

A shallow embedding of `main` and `run`.  The sequential code of `run` is
translated function by function.  The three concurrent activities of the
program (the main flow inside `run`, the goroutine listening on `signalChan`,
and the context watcher that `os/exec` runs for a `Cmd` built with
`exec.CommandContext`) are interleaved by an explicit schedule: a list of
events, each of which is one atomic action of one activity or of the
environment (a host signal, the result of `cmd.Start`, the result of
`cmd.Wait`).
-/

namespace CmdExit

/-! ## Go values used by the program -/

/-- Signals of package `syscall` that the program names. -/
inductive Signal
  | SIGINT
  | SIGTERM
  deriving DecidableEq, Repr

/-- Go `error` values: either an error without `Unwrap`, or the result of
`fmt.Errorf` with one `%w` verb, which stores its message and the wrapped error. -/
inductive GoError
  | plain (msg : String)
  | wrapped (msg : String) (inner : GoError)
  deriving DecidableEq, Repr

/-- Method `Error()` of an error value. -/
def GoError.Error : GoError → String
  | .plain msg => msg
  | .wrapped msg _ => msg

/-- Function `errors.Unwrap`. -/
def GoError.Unwrap : GoError → Option GoError
  | .plain _ => none
  | .wrapped _ inner => some inner

/-- Call `fmt.Errorf(lead + "%w", err)`: the message is `lead` followed by the
message of `err`, and the result wraps `err`. -/
def Errorf (lead : String) (err : GoError) : GoError :=
  .wrapped (lead ++ err.Error) err

/-- Value `context.Canceled`, the only error a `context.WithCancel` context reports. -/
def Canceled : GoError := .plain "context canceled"

/-- Method `ctx.Err()` of the context made by `context.WithCancel(context.Background())`:
`nil` until the context is done, `context.Canceled` afterwards. -/
def ctxErr (done : Bool) : Option GoError :=
  if done then some Canceled else none

/-- Environment of the supervisor; `os.Getenv` yields the empty string for an unset name. -/
abbrev Env := String → String

/-- Streams a command can be connected to. -/
inductive Stream
  | osStdout
  | osStderr
  deriving DecidableEq, Repr

/-- One `kill(2)` request: a negative target addresses the process group `-target`. -/
structure KillCall where
  target : Int
  sig : Signal
  deriving DecidableEq, Repr

/-- Constant `time.Second`, in nanoseconds. -/
def Second : Nat := 1000000000

/-- The fields of `exec.Cmd` that `run` sets.  `Cancel` is the hook as a function
of `cmd.Process.Pid`, yielding the signals it sends and the error it returns. -/
structure Cmd where
  Args : List String
  Cancel : Nat → List KillCall × Option GoError
  WaitDelay : Nat
  Setpgid : Bool
  Stdout : Stream
  Stderr : Stream

/-- A started child: its process id and its process group id. -/
structure Process where
  Pid : Nat
  Pgid : Nat
  deriving DecidableEq, Repr

/-! ## The code of `run` -/

/-- Modelled from the spec: `interruptProcessTree` is called by `run` but its body is
not part of the sources.  Section 4.4: given a process-group identifier and a signal it
signals the group as a unit through the negative-process-group addressing convention,
and delivery errors are logged, not propagated. -/
def interruptProcessTree (pgid : Nat) (sig : Signal) : List KillCall × Option GoError :=
  ([{ target := -(pgid : Int), sig := sig }], none)

/-- Function `exec.CommandContext(ctx, name, arg...)`: the argument vector of the
command is `name` followed by `arg`. -/
def CommandContext (name : String) (arg : List String) : List String :=
  name :: arg

/-- Lines 52-60 of `run`: the argument vector of the command. -/
def commandArgs (getenv : Env) (userCmd : String) : List String :=
  let username := getenv "SUDO_USER"
  let cmd := CommandContext "sh" ["-c", userCmd]
  if username ≠ "" then
    CommandContext "sudo"
      ["-E", "-u", getenv "SUDO_USER", "env", "PATH=" ++ getenv "PATH", "sh", "-c", userCmd]
  else cmd

/-- Lines 52-76 of `run`: the command as configured before `cmd.Start`. -/
def newCmd (getenv : Env) (userCmd : String) : Cmd where
  Args := commandArgs getenv userCmd
  Cancel := fun pid => interruptProcessTree pid Signal.SIGINT
  WaitDelay := 10 * Second
  Setpgid := true
  Stdout := Stream.osStdout
  Stderr := Stream.osStderr

/-- Lines 80-83 of `run`: a failed `cmd.Start` makes `run` return the wrapped error;
`none` means that `run` goes on to `cmd.Wait`. -/
def startFailure (startErr : Option GoError) : Option GoError :=
  match startErr with
  | some err => some (Errorf "failed to start the app: " err)
  | none => none

/-- Lines 86-96 of `run`: the `select` after `cmd.Wait` returned `err`; `done` tells
whether `ctx.Done()` is closed at that moment.  The value is what `run` returns. -/
def afterWait (done : Bool) (err : Option GoError) : Option GoError :=
  if done then ctxErr done
  else
    match err with
    | some e => some (Errorf "unexpected error while waiting for the app to exit: " e)
    | none => none

/-- Lines 80-96 of `run`, from `cmd.Start` to the return, as a function of what the
primitives yield: the error of `cmd.Start`, the error of `cmd.Wait`, and whether
`ctx.Done()` is closed when the `select` is reached. -/
def run (startErr waitErr : Option GoError) (done : Bool) : Option GoError :=
  match startFailure startErr with
  | some err => some err
  | none => afterWait done waitErr

/-! ## The environment and the interleaving -/

/-- Process group of a child: with `Setpgid` (and `Pgid` left zero) the child is made
the leader of a new group, otherwise it stays in the group of its parent. -/
def childPgid (setpgid : Bool) (parentPgid pid : Nat) : Nat :=
  if setpgid then pid else parentPgid

/-- Capacity of `signalChan`: `make(chan os.Signal, 1)`. -/
def signalChanCap : Nat := 1

/-- Delivery by `signal.Notify`: a send that never blocks; the signal is dropped when
the channel buffer is full. -/
def notify (chan : List Signal) (sig : Signal) : List Signal :=
  if chan.length < signalChanCap then chan ++ [sig] else chan

/-- Result of the spawn primitive behind `cmd.Start`. -/
inductive StartResult
  | spawned (pid : Nat)
  | failed (err : GoError)
  deriving DecidableEq, Repr

/-- Where the main flow stands. -/
inductive Pc
  | beforeStart
  | inWait
  | waitDone (err : Option GoError)
  | returned (err : Option GoError)
  | exited (err : Option GoError)
  deriving DecidableEq, Repr

/-- One atomic action of the program or of its environment. -/
inductive Event
  | start (r : StartResult)
  | hostSignal (sig : Signal)
  | listen
  | watch
  | waitReturn (err : Option GoError)
  | postWait
  | mainReturn
  deriving DecidableEq, Repr

/-- What the supervisor is started with. -/
structure Config where
  getenv : Env
  userCmd : String
  pgid : Nat

/-- State of the supervisor. -/
structure State where
  signalChan : List Signal
  received : Option Signal
  cancelCalls : Nat
  ctxDone : Bool
  pc : Pc
  proc : Option Process
  startCalls : List (List String)
  waitCalls : Nat
  hookCalls : Nat
  sent : List KillCall
  deriving DecidableEq, Repr

/-- State at the call of `run`: empty channel, listener blocked, live context. -/
def State.initial : State where
  signalChan := []
  received := none
  cancelCalls := 0
  ctxDone := false
  pc := Pc.beforeStart
  proc := none
  startCalls := []
  waitCalls := 0
  hookCalls := 0
  sent := []

/-- Value returned by `run`, once it has returned. -/
def State.result (st : State) : Option (Option GoError) :=
  match st.pc with
  | .returned err => some err
  | .exited err => some err
  | _ => none

/-- Lines 38-42 of `main`: the goroutine receives one signal, logs it and cancels the
context; it then ends.  It stays blocked while the channel is empty. -/
def listenStep (st : State) : State :=
  match st.received, st.signalChan with
  | none, sig :: rest =>
    { st with signalChan := rest, received := some sig,
              cancelCalls := st.cancelCalls + 1, ctxDone := true }
  | _, _ => st

/-- Lines 80-85 of `run`: `cmd.Start` with the result the spawn primitive gives; on
success the main flow enters `cmd.Wait`. -/
def startStep (cfg : Config) (st : State) (r : StartResult) : State :=
  match st.pc with
  | .beforeStart =>
    let cmd := newCmd cfg.getenv cfg.userCmd
    let st1 := { st with startCalls := st.startCalls ++ [cmd.Args] }
    match r with
    | .failed err => { st1 with pc := Pc.returned (startFailure (some err)) }
    | .spawned pid =>
      { st1 with proc := some { Pid := pid, Pgid := childPgid cmd.Setpgid cfg.pgid pid },
                 waitCalls := st1.waitCalls + 1, pc := Pc.inWait }
  | _ => st

/-- Context watcher of `os/exec`: when the context of a started command is done
before `cmd.Wait` has returned, it calls `cmd.Cancel`, once. -/
def watchStep (cfg : Config) (st : State) : State :=
  match st.pc, st.proc with
  | .inWait, some p =>
    if st.ctxDone ∧ st.hookCalls = 0 then
      let out := (newCmd cfg.getenv cfg.userCmd).Cancel p.Pid
      { st with hookCalls := st.hookCalls + 1, sent := st.sent ++ out.1 }
    else st
  | _, _ => st

/-- Line 85 of `run`: `cmd.Wait` returns `err`. -/
def waitReturnStep (st : State) (err : Option GoError) : State :=
  match st.pc with
  | .inWait => { st with pc := Pc.waitDone err }
  | _ => st

/-- Lines 86-96 of `run`: the `select` on `ctx.Done()` and the return. -/
def postWaitStep (st : State) : State :=
  match st.pc with
  | .waitDone err => { st with pc := Pc.returned (afterWait st.ctxDone err) }
  | _ => st

/-- Lines 45-48 and 31 of `main`: `run` has returned, `main` returns, the deferred
`cancel()` runs and the process ends. -/
def mainReturnStep (st : State) : State :=
  match st.pc with
  | .returned err => { st with pc := Pc.exited err, ctxDone := true }
  | _ => st

/-- One step of the supervisor; nothing happens once the process has ended. -/
def step (cfg : Config) (st : State) (ev : Event) : State :=
  match st.pc with
  | .exited _ => st
  | _ =>
    match ev with
    | .start r => startStep cfg st r
    | .hostSignal sig => { st with signalChan := notify st.signalChan sig }
    | .listen => listenStep st
    | .watch => watchStep cfg st
    | .waitReturn err => waitReturnStep st err
    | .postWait => postWaitStep st
    | .mainReturn => mainReturnStep st

/-- Execution of a schedule from a state. -/
def exec (cfg : Config) (st : State) (evs : List Event) : State :=
  evs.foldl (step cfg) st

/-- Execution of a schedule from the call of `run`. -/
def execute (cfg : Config) (evs : List Event) : State :=
  exec cfg State.initial evs

/-- Whether an event is the delivery of a host signal. -/
def Event.isSignal : Event → Bool
  | .hostSignal _ => true
  | _ => false

/-- Whether an event is the return of `cmd.Wait`. -/
def Event.isWaitReturn : Event → Bool
  | .waitReturn _ => true
  | _ => false

/-- A schedule without its host signals. -/
def dropSignals (evs : List Event) : List Event :=
  evs.filter (fun e => !e.isSignal)

/-- What can be observed of a state: all of it but the content of the channel buffer. -/
def State.observable (st : State) : State :=
  { st with signalChan := [] }

/-- Environment with `SUDO_USER` and `PATH` set to the given values. -/
def envOf (sudoUser path : String) : Env :=
  fun name => if name = "SUDO_USER" then sudoUser else if name = "PATH" then path else ""

/-- Configuration used in the examples: no `SUDO_USER`, command `sleep 30`. -/
def demoConfig : Config where
  getenv := envOf "" "/usr/bin"
  userCmd := "sleep 30"
  pgid := 100

/-- The single interrupt the cancel hook sends for a child. -/
def interruptOf (p : Process) : KillCall :=
  { target := -(p.Pid : Int), sig := Signal.SIGINT }

/-- Facts that hold in every state reached from the call of `run`. -/
structure Reachable (cfg : Config) (st : State) : Prop where
  recv : st.received ≠ none → st.ctxDone = true
  cancels : st.cancelCalls = if st.received = none then 0 else 1
  starts : st.startCalls =
    if st.pc = Pc.beforeStart then [] else [commandArgs cfg.getenv cfg.userCmd]
  procNone : st.proc = none →
    st.waitCalls = 0 ∧ st.hookCalls = 0 ∧ st.pc ≠ Pc.inWait ∧ ∀ w, st.pc ≠ Pc.waitDone w
  procSome : ∀ p, st.proc = some p →
    p.Pgid = p.Pid ∧ st.waitCalls = 1 ∧ st.pc ≠ Pc.beforeStart
  hook : (st.hookCalls = 0 ∧ st.sent = []) ∨
    (st.hookCalls = 1 ∧ st.ctxDone = true ∧ ∃ p, st.proc = some p ∧ st.sent = [interruptOf p])

/-- Whether the supervisor process has ended. -/
def Pc.isExited : Pc → Bool
  | .exited _ => true
  | _ => false

/-- Two states that differ at most in a channel buffer nobody will read again: the
process has ended, or the listener has finished, or the buffers agree and are full. -/
def SameButChan (s t : State) : Prop :=
  s.observable = t.observable ∧
  (s.pc.isExited = true ∨ s.received ≠ none ∨ (s.signalChan = t.signalChan ∧ s.signalChan ≠ []))

/-! ## Executions -/

theorem exec_nil (cfg : Config) (st : State) : exec cfg st [] = st := rfl

theorem exec_cons (cfg : Config) (st : State) (ev : Event) (evs : List Event) :
    exec cfg st (ev :: evs) = exec cfg (step cfg st ev) evs := rfl

theorem exec_append (cfg : Config) (st : State) (as bs : List Event) :
    exec cfg st (as ++ bs) = exec cfg (exec cfg st as) bs := by
  simp [exec, List.foldl_append]

theorem execute_append (cfg : Config) (as bs : List Event) :
    execute cfg (as ++ bs) = exec cfg (execute cfg as) bs := by
  simp [execute, exec_append]

/-- A property kept by every step is kept by every execution. -/
theorem exec_induction (cfg : Config) (P : State → Prop)
    (hstep : ∀ st ev, P st → P (step cfg st ev)) :
    ∀ (evs : List Event) (st : State), P st → P (exec cfg st evs) := by
  intro evs
  induction evs with
  | nil => intro st h; exact h
  | cons ev evs ih => intro st h; exact ih _ (hstep st ev h)

/-- A property kept by every step of a kind of event is kept by the executions made
of such events. -/
theorem exec_induction_on (cfg : Config) (P : State → Prop) (ok : Event → Bool)
    (hstep : ∀ st ev, ok ev = true → P st → P (step cfg st ev)) :
    ∀ (evs : List Event) (st : State), evs.all ok = true → P st → P (exec cfg st evs) := by
  intro evs
  induction evs with
  | nil => intro st _ h; exact h
  | cons ev evs ih =>
    intro st hall h
    rw [List.all_cons, Bool.and_eq_true] at hall
    exact ih _ hall.2 (hstep st ev hall.1 h)

theorem step_exited (cfg : Config) (st : State) (ev : Event) (r : Option GoError)
    (h : st.pc = Pc.exited r) : step cfg st ev = st := by
  simp [step, h]

theorem exec_exited (cfg : Config) (evs : List Event) (st : State) (r : Option GoError)
    (h : st.pc = Pc.exited r) : exec cfg st evs = st := by
  induction evs with
  | nil => rfl
  | cons ev evs ih => rw [exec_cons, step_exited cfg st ev r h]; exact ih

/-! ### What each activity leaves untouched -/

@[simp]
theorem listenStep_pc (st : State) : (listenStep st).pc = st.pc := by
  unfold listenStep; split <;> rfl

@[simp]
theorem listenStep_proc (st : State) : (listenStep st).proc = st.proc := by
  unfold listenStep; split <;> rfl

@[simp]
theorem listenStep_startCalls (st : State) :
    (listenStep st).startCalls = st.startCalls := by
  unfold listenStep; split <;> rfl

@[simp]
theorem listenStep_waitCalls (st : State) :
    (listenStep st).waitCalls = st.waitCalls := by
  unfold listenStep; split <;> rfl

@[simp]
theorem listenStep_hookCalls (st : State) :
    (listenStep st).hookCalls = st.hookCalls := by
  unfold listenStep; split <;> rfl

@[simp]
theorem listenStep_sent (st : State) : (listenStep st).sent = st.sent := by
  unfold listenStep; split <;> rfl

@[simp]
theorem watchStep_pc (cfg : Config) (st : State) : (watchStep cfg st).pc = st.pc := by
  unfold watchStep; split <;> [split; skip] <;> rfl

@[simp]
theorem watchStep_proc (cfg : Config) (st : State) :
    (watchStep cfg st).proc = st.proc := by
  unfold watchStep; split <;> [split; skip] <;> rfl

@[simp]
theorem watchStep_signalChan (cfg : Config) (st : State) :
    (watchStep cfg st).signalChan = st.signalChan := by
  unfold watchStep; split <;> [split; skip] <;> rfl

@[simp]
theorem watchStep_received (cfg : Config) (st : State) :
    (watchStep cfg st).received = st.received := by
  unfold watchStep; split <;> [split; skip] <;> rfl

@[simp]
theorem watchStep_cancelCalls (cfg : Config) (st : State) :
    (watchStep cfg st).cancelCalls = st.cancelCalls := by
  unfold watchStep; split <;> [split; skip] <;> rfl

@[simp]
theorem watchStep_ctxDone (cfg : Config) (st : State) :
    (watchStep cfg st).ctxDone = st.ctxDone := by
  unfold watchStep; split <;> [split; skip] <;> rfl

@[simp]
theorem watchStep_startCalls (cfg : Config) (st : State) :
    (watchStep cfg st).startCalls = st.startCalls := by
  unfold watchStep; split <;> [split; skip] <;> rfl

@[simp]
theorem watchStep_waitCalls (cfg : Config) (st : State) :
    (watchStep cfg st).waitCalls = st.waitCalls := by
  unfold watchStep; split <;> [split; skip] <;> rfl

/-- The watcher does nothing unless the main flow is inside `cmd.Wait`. -/
theorem watchStep_of_not_inWait (cfg : Config) (st : State) (h : st.pc ≠ Pc.inWait) :
    watchStep cfg st = st := by
  unfold watchStep; split
  · rename_i hpc _; exact absurd hpc h
  · rfl

/-- What the watcher does while the main flow is inside `cmd.Wait`. -/
theorem watchStep_inWait (cfg : Config) (st : State) (p : Process)
    (hpc : st.pc = Pc.inWait) (hp : st.proc = some p) :
    watchStep cfg st =
      if st.ctxDone = true ∧ st.hookCalls = 0 then
        { st with hookCalls := st.hookCalls + 1,
                  sent := st.sent ++ [{ target := -(p.Pid : Int), sig := Signal.SIGINT }] }
      else st := by
  unfold watchStep
  rw [hpc, hp]
  simp [newCmd, interruptProcessTree]

/-- The start of the command does nothing once it has been attempted. -/
theorem startStep_of_not_beforeStart (cfg : Config) (st : State) (r : StartResult)
    (h : st.pc ≠ Pc.beforeStart) : startStep cfg st r = st := by
  unfold startStep; split
  · rename_i hpc; exact absurd hpc h
  · rfl

theorem waitReturnStep_of_not_inWait (st : State) (err : Option GoError)
    (h : st.pc ≠ Pc.inWait) : waitReturnStep st err = st := by
  unfold waitReturnStep; split
  · rename_i hpc; exact absurd hpc h
  · rfl

/-- The step of the main flow at each of its positions. -/
theorem step_beforeStart (cfg : Config) (st : State) (ev : Event)
    (hpc : st.pc = Pc.beforeStart) :
    step cfg st ev =
      match ev with
      | .start (.failed err) =>
        { st with startCalls := st.startCalls ++ [commandArgs cfg.getenv cfg.userCmd],
                  pc := Pc.returned (some (Errorf "failed to start the app: " err)) }
      | .start (.spawned pid) =>
        { st with startCalls := st.startCalls ++ [commandArgs cfg.getenv cfg.userCmd],
                  proc := some { Pid := pid, Pgid := pid },
                  waitCalls := st.waitCalls + 1, pc := Pc.inWait }
      | .hostSignal sig => { st with signalChan := notify st.signalChan sig }
      | .listen => listenStep st
      | _ => st := by
  cases ev with
  | start r => cases r <;> simp [step, hpc, startStep, newCmd, childPgid, startFailure]
  | hostSignal sig => simp [step, hpc]
  | listen => simp [step, hpc]
  | watch => simp [step, hpc, watchStep]
  | waitReturn err => simp [step, hpc, waitReturnStep]
  | postWait => simp [step, hpc, postWaitStep]
  | mainReturn => simp [step, hpc, mainReturnStep]

theorem step_inWait (cfg : Config) (st : State) (ev : Event) (hpc : st.pc = Pc.inWait) :
    step cfg st ev =
      match ev with
      | .hostSignal sig => { st with signalChan := notify st.signalChan sig }
      | .listen => listenStep st
      | .watch => watchStep cfg st
      | .waitReturn err => { st with pc := Pc.waitDone err }
      | _ => st := by
  cases ev with
  | start r => simp [step, hpc, startStep]
  | hostSignal sig => simp [step, hpc]
  | listen => simp [step, hpc]
  | watch => simp [step, hpc]
  | waitReturn err => simp [step, hpc, waitReturnStep]
  | postWait => simp [step, hpc, postWaitStep]
  | mainReturn => simp [step, hpc, mainReturnStep]

theorem step_waitDone (cfg : Config) (st : State) (ev : Event) (w : Option GoError)
    (hpc : st.pc = Pc.waitDone w) :
    step cfg st ev =
      match ev with
      | .hostSignal sig => { st with signalChan := notify st.signalChan sig }
      | .listen => listenStep st
      | .postWait => { st with pc := Pc.returned (afterWait st.ctxDone w) }
      | _ => st := by
  cases ev with
  | start r => simp [step, hpc, startStep]
  | hostSignal sig => simp [step, hpc]
  | listen => simp [step, hpc]
  | watch => simp [step, hpc, watchStep]
  | waitReturn err => simp [step, hpc, waitReturnStep]
  | postWait => simp [step, hpc, postWaitStep]
  | mainReturn => simp [step, hpc, mainReturnStep]

theorem step_returned (cfg : Config) (st : State) (ev : Event) (r : Option GoError)
    (hpc : st.pc = Pc.returned r) :
    step cfg st ev =
      match ev with
      | .hostSignal sig => { st with signalChan := notify st.signalChan sig }
      | .listen => listenStep st
      | .mainReturn => { st with pc := Pc.exited r, ctxDone := true }
      | _ => st := by
  cases ev with
  | start r => simp [step, hpc, startStep]
  | hostSignal sig => simp [step, hpc]
  | listen => simp [step, hpc]
  | watch => simp [step, hpc, watchStep]
  | waitReturn err => simp [step, hpc, waitReturnStep]
  | postWait => simp [step, hpc, postWaitStep]
  | mainReturn => simp [step, hpc, mainReturnStep]

/-- Once `run` has returned a value, that value stays. -/
theorem step_result (cfg : Config) (st : State) (ev : Event) (r : Option GoError)
    (h : st.result = some r) : (step cfg st ev).result = some r := by
  unfold State.result at h
  cases hpc : st.pc <;> rw [hpc] at h <;> simp at h
  · subst h
    rw [step_returned cfg st ev _ hpc]
    cases ev <;> simp [State.result, hpc]
  · subst h
    rw [step_exited cfg st ev _ hpc]
    simp [State.result, hpc]

theorem exec_result (cfg : Config) (evs : List Event) (st : State) (r : Option GoError)
    (h : st.result = some r) : (exec cfg st evs).result = some r :=
  exec_induction cfg (fun s => s.result = some r) (fun s ev hs => step_result cfg s ev r hs) evs st h

theorem listenStep_ctxDone (st : State) (h : st.ctxDone = true) :
    (listenStep st).ctxDone = true := by
  unfold listenStep; split
  · rfl
  · exact h

/-- A cancelled context stays cancelled. -/
theorem step_ctxDone (cfg : Config) (st : State) (ev : Event)
    (h : st.ctxDone = true) : (step cfg st ev).ctxDone = true := by
  cases hpc : st.pc with
  | beforeStart =>
    rw [step_beforeStart cfg st ev hpc]
    cases ev with
    | start r => cases r <;> simp [h]
    | listen => exact listenStep_ctxDone st h
    | _ => simp [h]
  | inWait =>
    rw [step_inWait cfg st ev hpc]
    cases ev with
    | listen => exact listenStep_ctxDone st h
    | _ => simp [h]
  | waitDone w =>
    rw [step_waitDone cfg st ev w hpc]
    cases ev with
    | listen => exact listenStep_ctxDone st h
    | _ => simp [h]
  | returned r =>
    rw [step_returned cfg st ev r hpc]
    cases ev with
    | listen => exact listenStep_ctxDone st h
    | _ => simp [h]
  | exited r => rw [step_exited cfg st ev r hpc]; exact h

theorem exec_ctxDone (cfg : Config) (evs : List Event) (st : State)
    (h : st.ctxDone = true) : (exec cfg st evs).ctxDone = true :=
  exec_induction cfg (fun s => s.ctxDone = true) (fun s ev hs => step_ctxDone cfg s ev hs) evs st h

/-! ### Reachable states -/

theorem reachable_initial (cfg : Config) : Reachable cfg State.initial := by
  constructor <;> simp [State.initial]

theorem listenStep_eq_self (st : State) (h : st.received ≠ none ∨ st.signalChan = []) :
    listenStep st = st := by
  unfold listenStep
  split
  · rename_i h1 h2
    rcases h with h | h
    · exact absurd h1 h
    · rw [h2] at h; cases h
  · rfl

theorem listenStep_receive (st : State) (sig : Signal) (rest : List Signal)
    (h1 : st.received = none) (h2 : st.signalChan = sig :: rest) :
    listenStep st =
      { st with signalChan := rest, received := some sig,
                cancelCalls := st.cancelCalls + 1, ctxDone := true } := by
  unfold listenStep
  rw [h1, h2]

/-- The listener either stays blocked or receives the head of the channel. -/
theorem listenStep_cases (st : State) :
    listenStep st = st ∨
    ∃ sig rest, st.received = none ∧ st.signalChan = sig :: rest ∧
      listenStep st =
        { st with signalChan := rest, received := some sig,
                  cancelCalls := st.cancelCalls + 1, ctxDone := true } := by
  cases h1 : st.received with
  | some s => left; exact listenStep_eq_self st (Or.inl (by simp [h1]))
  | none =>
    cases h2 : st.signalChan with
    | nil => left; exact listenStep_eq_self st (Or.inr h2)
    | cons sig rest => right; exact ⟨sig, rest, rfl, rfl, listenStep_receive st sig rest h1 h2⟩

theorem reachable_listenStep (cfg : Config) (st : State) (h : Reachable cfg st) :
    Reachable cfg (listenStep st) := by
  rcases listenStep_cases st with he | ⟨sig, rest, h1, _, he⟩
  · rw [he]; exact h
  · rw [he]
    obtain ⟨hr, hc, hs, hpn, hps, hh⟩ := h
    refine ⟨by simp, ?_, hs, hpn, hps, ?_⟩
    · simp [hc, h1]
    · rcases hh with hh | ⟨h0, _, hp⟩
      · exact Or.inl hh
      · exact Or.inr ⟨h0, rfl, hp⟩

theorem reachable_notify (cfg : Config) (st : State) (sig : Signal) (h : Reachable cfg st) :
    Reachable cfg { st with signalChan := notify st.signalChan sig } := by
  obtain ⟨hr, hc, hs, hpn, hps, hh⟩ := h
  exact ⟨hr, hc, hs, hpn, hps, hh⟩

theorem reachable_watchStep (cfg : Config) (st : State) (h : Reachable cfg st) :
    Reachable cfg (watchStep cfg st) := by
  by_cases hpc : st.pc = Pc.inWait
  · cases hp : st.proc with
    | none => exact absurd hpc (h.procNone hp).2.2.1
    | some p =>
      rw [watchStep_inWait cfg st p hpc hp]
      split
      · rename_i hc
        obtain ⟨hr, hcc, hs, hpn, hps, hh⟩ := h
        refine ⟨hr, hcc, hs, ?_, ?_, ?_⟩
        · intro hn; simp [hp] at hn
        · exact hps
        · rcases hh with ⟨_, hsent⟩ | ⟨h1, _, _⟩
          · right
            refine ⟨by simp [hc.2], hc.1, p, hp, ?_⟩
            simp [hsent, interruptOf]
          · rw [hc.2] at h1; cases h1
      · exact h
  · rw [watchStep_of_not_inWait cfg st hpc]; exact h

theorem reachable_step (cfg : Config) (st : State) (ev : Event) (h : Reachable cfg st) :
    Reachable cfg (step cfg st ev) := by
  cases hpc : st.pc with
  | beforeStart =>
    rw [step_beforeStart cfg st ev hpc]
    have hproc : st.proc = none := by
      cases hp : st.proc with
      | none => rfl
      | some p => exact absurd hpc (h.procSome p hp).2.2
    obtain ⟨hr, hc, hs, hpn, hps, hh⟩ := h
    have hh0 : st.hookCalls = 0 ∧ st.sent = [] := by
      rcases hh with hh | ⟨_, _, p, hp, _⟩
      · exact hh
      · rw [hproc] at hp; cases hp
    cases ev with
    | start r =>
      cases r with
      | spawned pid =>
        refine ⟨hr, hc, ?_, ?_, ?_, Or.inl hh0⟩
        · simp [hs, hpc]
        · intro hn; simp at hn
        · intro p hp
          simp at hp
          subst hp
          simp [(hpn hproc).1]
      | failed err =>
        refine ⟨hr, hc, ?_, ?_, ?_, Or.inl hh0⟩
        · simp [hs, hpc]
        · intro _
          exact ⟨(hpn hproc).1, hh0.1, by simp, by simp⟩
        · intro p hp
          simp [hproc] at hp
    | hostSignal sig => exact reachable_notify cfg st sig ⟨hr, hc, hs, hpn, hps, hh⟩
    | listen => exact reachable_listenStep cfg st ⟨hr, hc, hs, hpn, hps, hh⟩
    | _ => exact ⟨hr, hc, hs, hpn, hps, hh⟩
  | inWait =>
    rw [step_inWait cfg st ev hpc]
    cases ev with
    | hostSignal sig => exact reachable_notify cfg st sig h
    | listen => exact reachable_listenStep cfg st h
    | watch => exact reachable_watchStep cfg st h
    | waitReturn err =>
      obtain ⟨hr, hc, hs, hpn, hps, hh⟩ := h
      refine ⟨hr, hc, ?_, ?_, ?_, hh⟩
      · simp [hs, hpc]
      · intro hn
        exact absurd hpc (hpn hn).2.2.1
      · intro p hp
        have := hps p hp
        simp [this.1, this.2.1]
    | _ => exact h
  | waitDone w =>
    rw [step_waitDone cfg st ev w hpc]
    cases ev with
    | hostSignal sig => exact reachable_notify cfg st sig h
    | listen => exact reachable_listenStep cfg st h
    | postWait =>
      obtain ⟨hr, hc, hs, hpn, hps, hh⟩ := h
      refine ⟨hr, hc, ?_, ?_, ?_, hh⟩
      · simp [hs, hpc]
      · intro hn
        exact absurd hpc ((hpn hn).2.2.2 w)
      · intro p hp
        have := hps p hp
        simp [this.1, this.2.1]
    | _ => exact h
  | returned r =>
    rw [step_returned cfg st ev r hpc]
    cases ev with
    | hostSignal sig => exact reachable_notify cfg st sig h
    | listen => exact reachable_listenStep cfg st h
    | mainReturn =>
      obtain ⟨hr, hc, hs, hpn, hps, hh⟩ := h
      refine ⟨fun _ => rfl, hc, ?_, ?_, ?_, ?_⟩
      · simp [hs, hpc]
      · intro hn
        have := hpn hn
        exact ⟨this.1, this.2.1, by simp, by simp⟩
      · intro p hp
        have := hps p hp
        simp [this.1, this.2.1]
      · rcases hh with hh | ⟨h0, _, hp⟩
        · exact Or.inl hh
        · exact Or.inr ⟨h0, rfl, hp⟩
    | _ => exact h
  | exited r => rw [step_exited cfg st ev r hpc]; exact h

theorem reachable_exec (cfg : Config) (evs : List Event) (st : State) (h : Reachable cfg st) :
    Reachable cfg (exec cfg st evs) :=
  exec_induction cfg (Reachable cfg) (fun s ev hs => reachable_step cfg s ev hs) evs st h

theorem reachable_execute (cfg : Config) (evs : List Event) :
    Reachable cfg (execute cfg evs) :=
  reachable_exec cfg evs State.initial (reachable_initial cfg)

/-- Before `cmd.Start` nothing has been spawned; afterwards exactly the configured
argument vector has been, once. -/
theorem startCalls_execute (cfg : Config) (evs : List Event) :
    (execute cfg evs).startCalls =
      if (execute cfg evs).pc = Pc.beforeStart then []
      else [commandArgs cfg.getenv cfg.userCmd] :=
  (reachable_execute cfg evs).starts

/-! ## The command launcher -/

/-- The command is configured, before it is started, with a wait delay of ten seconds,
its own process group, the streams of the supervisor, and a cancel hook that interrupts
the process tree of the child with `SIGINT`. -/
theorem newCmd_fields (getenv : Env) (c : String) :
    (newCmd getenv c).WaitDelay = 10000000000 ∧
    (newCmd getenv c).Setpgid = true ∧
    (newCmd getenv c).Stdout = Stream.osStdout ∧
    (newCmd getenv c).Stderr = Stream.osStderr ∧
    (∀ pid, (newCmd getenv c).Cancel pid = interruptProcessTree pid Signal.SIGINT) :=
  ⟨rfl, rfl, rfl, rfl, fun _ => rfl⟩

/-- C5: for every command string `c`, every non-empty `SUDO_USER` value `u` and every
`PATH` value `p`, the argument vector that `run` spawns is exactly
`sudo -E -u u env PATH=p sh -c c`, with `c` one unmodified argument: it is the vector of
the configured command, the one handed to the first `cmd.Start`, and the only one any
schedule ever spawns. -/
theorem spawn_args_with_sudo_user (getenv : Env) (c u p : String) (pgid : Nat)
    (hu : getenv "SUDO_USER" = u) (hne : u ≠ "") (hp : getenv "PATH" = p) :
    (newCmd getenv c).Args = ["sudo", "-E", "-u", u, "env", "PATH=" ++ p, "sh", "-c", c] ∧
    (∀ r, (execute ⟨getenv, c, pgid⟩ [Event.start r]).startCalls =
      [["sudo", "-E", "-u", u, "env", "PATH=" ++ p, "sh", "-c", c]]) ∧
    (∀ evs, ∀ args ∈ (execute ⟨getenv, c, pgid⟩ evs).startCalls,
      args = ["sudo", "-E", "-u", u, "env", "PATH=" ++ p, "sh", "-c", c]) := by
  have hargs : commandArgs getenv c =
      ["sudo", "-E", "-u", u, "env", "PATH=" ++ p, "sh", "-c", c] := by
    simp [commandArgs, CommandContext, hu, hp, hne]
  refine ⟨hargs, ?_, ?_⟩
  · intro r
    cases r <;> simp [execute, exec, step, State.initial, startStep, newCmd, hargs]
  · intro evs args hmem
    rw [startCalls_execute] at hmem
    split at hmem
    · simp at hmem
    · simp at hmem
      rw [hmem]; exact hargs

theorem spawn_args_with_sudo_user_witness :
    "bob" ≠ "" ∧
    (newCmd (envOf "bob" "/usr/bin") "ls -l").Args =
      ["sudo", "-E", "-u", "bob", "env", "PATH=" ++ "/usr/bin", "sh", "-c", "ls -l"] :=
  ⟨by decide,
   (spawn_args_with_sudo_user (envOf "bob" "/usr/bin") "ls -l" "bob" "/usr/bin" 100
      rfl (by decide) rfl).1⟩

/-- C6: for every command string `c`, when the `SUDO_USER` lookup yields the empty
string, the argument vector that `run` spawns is exactly `sh -c c`, with `c` one
unmodified argument and no wrapper, whatever the value of `PATH`. -/
theorem spawn_args_without_sudo_user (getenv : Env) (c : String) (pgid : Nat)
    (hu : getenv "SUDO_USER" = "") :
    (newCmd getenv c).Args = ["sh", "-c", c] ∧
    (∀ r, (execute ⟨getenv, c, pgid⟩ [Event.start r]).startCalls = [["sh", "-c", c]]) ∧
    (∀ evs, ∀ args ∈ (execute ⟨getenv, c, pgid⟩ evs).startCalls, args = ["sh", "-c", c]) := by
  have hargs : commandArgs getenv c = ["sh", "-c", c] := by
    simp [commandArgs, CommandContext, hu]
  refine ⟨hargs, ?_, ?_⟩
  · intro r
    cases r <;> simp [execute, exec, step, State.initial, startStep, newCmd, hargs]
  · intro evs args hmem
    rw [startCalls_execute] at hmem
    split at hmem
    · simp at hmem
    · simp at hmem
      rw [hmem]; exact hargs

theorem spawn_args_without_sudo_user_witness :
    (newCmd (envOf "" "/opt/bin:/usr/bin") "sleep 30").Args = ["sh", "-c", "sleep 30"] :=
  (spawn_args_without_sudo_user (envOf "" "/opt/bin:/usr/bin") "sleep 30" 100 rfl).1

/-! ## The outcome of `run` -/

/-- C1: whenever the context is done at the post-wait check, `run` returns exactly
`ctx.Err()`, which is `context.Canceled`, for every result `w` of `cmd.Wait`; the value
wraps nothing, its message does not depend on `w`, it is not the wrapped
"unexpected error while waiting for the app to exit" error, and it stays the result of
`run` whatever happens next. -/
theorem run_returns_ctx_err_when_done (cfg : Config) (evs : List Event)
    (w : Option GoError)
    (hpc : (execute cfg evs).pc = Pc.waitDone w)
    (hdone : (execute cfg evs).ctxDone = true) :
    (execute cfg (evs ++ [Event.postWait])).result = some (ctxErr true) ∧
    ctxErr true = some Canceled ∧
    Canceled.Unwrap = none ∧
    Canceled.Error = "context canceled" ∧
    (∀ e, Canceled ≠ Errorf "unexpected error while waiting for the app to exit: " e) ∧
    (∀ post, (execute cfg (evs ++ Event.postWait :: post)).result = some (some Canceled)) := by
  have h1 : (step cfg (execute cfg evs) Event.postWait).result = some (some Canceled) := by
    rw [step_waitDone cfg _ _ w hpc]
    simp [State.result, hdone, afterWait, ctxErr]
  refine ⟨?_, rfl, rfl, rfl, ?_, ?_⟩
  · rw [execute_append, exec_cons, exec_nil, h1]; rfl
  · intro e h; simp [Canceled, Errorf] at h
  · intro post
    rw [execute_append, exec_cons]
    exact exec_result cfg post _ _ h1

theorem run_returns_ctx_err_when_done_witness :
    (execute demoConfig
      [Event.start (StartResult.spawned 7), Event.hostSignal Signal.SIGTERM, Event.listen,
       Event.watch, Event.waitReturn (some (GoError.plain "signal: interrupt")),
       Event.postWait]).result = some (ctxErr true) :=
  (run_returns_ctx_err_when_done demoConfig
    [Event.start (StartResult.spawned 7), Event.hostSignal Signal.SIGTERM, Event.listen,
     Event.watch, Event.waitReturn (some (GoError.plain "signal: interrupt"))]
    (some (GoError.plain "signal: interrupt")) rfl rfl).1

/-- C7: when the spawn succeeded, the context is not cancelled at the post-wait check
and `cmd.Wait` returned a non-nil error `e`, `run` returns an error whose message is
"unexpected error while waiting for the app to exit: " followed by the message of `e`
and which wraps `e`; with a nil wait error `run` returns nil.  So without cancellation
`run` returns nil exactly when the wait result is nil. -/
theorem run_wraps_wait_error (cfg : Config) (evs : List Event) (w : Option GoError)
    (hpc : (execute cfg evs).pc = Pc.waitDone w)
    (hlive : (execute cfg evs).ctxDone = false) :
    (∃ p, (execute cfg evs).proc = some p) ∧
    (∀ e, w = some e →
      (execute cfg (evs ++ [Event.postWait])).result =
        some (some (Errorf "unexpected error while waiting for the app to exit: " e)) ∧
      (Errorf "unexpected error while waiting for the app to exit: " e).Error =
        "unexpected error while waiting for the app to exit: " ++ e.Error ∧
      (Errorf "unexpected error while waiting for the app to exit: " e).Unwrap = some e) ∧
    (w = none → (execute cfg (evs ++ [Event.postWait])).result = some none) ∧
    ((execute cfg (evs ++ [Event.postWait])).result = some none ↔ w = none) := by
  have h1 : (execute cfg (evs ++ [Event.postWait])).result =
      some (afterWait false w) := by
    rw [execute_append, exec_cons, exec_nil, step_waitDone cfg _ _ w hpc]
    simp [State.result, hlive]
  refine ⟨?_, ?_, ?_, ?_⟩
  · cases hp : (execute cfg evs).proc with
    | none => exact absurd hpc (((reachable_execute cfg evs).procNone hp).2.2.2 w)
    | some p => exact ⟨p, rfl⟩
  · intro e he
    subst he
    exact ⟨by rw [h1]; rfl, rfl, rfl⟩
  · intro hw
    subst hw
    rw [h1]; rfl
  · rw [h1]
    cases w <;> simp [afterWait]

theorem run_wraps_wait_error_witness :
    (execute demoConfig
      [Event.start (StartResult.spawned 7),
       Event.waitReturn (some (GoError.plain "exit status 2")),
       Event.postWait]).result =
      some (some (Errorf "unexpected error while waiting for the app to exit: "
        (GoError.plain "exit status 2"))) :=
  ((run_wraps_wait_error demoConfig
    [Event.start (StartResult.spawned 7),
     Event.waitReturn (some (GoError.plain "exit status 2"))]
    (some (GoError.plain "exit status 2")) rfl rfl).2.1
      (GoError.plain "exit status 2") rfl).1

/-- After `run` has returned, no step changes the child or the calls made on it. -/
theorem exec_after_return (cfg : Config) (evs : List Event) (st : State)
    (r : Option GoError) (h : st.result = some r) :
    (exec cfg st evs).proc = st.proc ∧ (exec cfg st evs).waitCalls = st.waitCalls ∧
    (exec cfg st evs).hookCalls = st.hookCalls ∧ (exec cfg st evs).sent = st.sent ∧
    (exec cfg st evs).startCalls = st.startCalls := by
  have key := exec_induction cfg
    (fun s => s.result = some r ∧ s.proc = st.proc ∧ s.waitCalls = st.waitCalls ∧
      s.hookCalls = st.hookCalls ∧ s.sent = st.sent ∧ s.startCalls = st.startCalls)
    (fun s ev hs => by
      refine ⟨step_result cfg s ev r hs.1, ?_⟩
      have hres := hs.1
      unfold State.result at hres
      cases hpc : s.pc <;> rw [hpc] at hres <;> simp at hres
      · rw [step_returned cfg s ev _ hpc]
        cases ev <;> simp [hs.2]
      · rw [step_exited cfg s ev _ hpc]
        exact hs.2)
    evs st ⟨h, rfl, rfl, rfl, rfl, rfl⟩
  exact key.2

/-- A failed `cmd.Start` records the attempt and makes `run` return the wrapped error. -/
theorem step_start_failed (cfg : Config) (st : State) (e : GoError)
    (hpc : st.pc = Pc.beforeStart) :
    step cfg st (Event.start (StartResult.failed e)) =
      { st with
        startCalls := st.startCalls ++ [commandArgs cfg.getenv cfg.userCmd],
        pc := Pc.returned (some (Errorf "failed to start the app: " e)) } ∧
    (step cfg st (Event.start (StartResult.failed e))).result =
      some (some (Errorf "failed to start the app: " e)) := by
  have h : step cfg st (Event.start (StartResult.failed e)) =
      { st with
        startCalls := st.startCalls ++ [commandArgs cfg.getenv cfg.userCmd],
        pc := Pc.returned (some (Errorf "failed to start the app: " e)) } := by
    rw [step_beforeStart cfg _ _ hpc]
  exact ⟨h, by rw [h]; rfl⟩

/-- C8: when `cmd.Start` fails with error `e`, `run` returns at once an error whose
message is "failed to start the app: " followed by the message of `e` and which wraps
`e`; the start has been attempted exactly once, `cmd.Wait` is never called and no
interrupt is sent.  Nothing is assumed about the context: the result is the wrapped
spawn error, never the cancellation error, also when the context is already cancelled. -/
theorem run_start_failure (cfg : Config) (evs post : List Event) (e : GoError)
    (hpc : (execute cfg evs).pc = Pc.beforeStart) :
    (execute cfg (evs ++ Event.start (StartResult.failed e) :: post)).result =
      some (some (Errorf "failed to start the app: " e)) ∧
    (Errorf "failed to start the app: " e).Error = "failed to start the app: " ++ e.Error ∧
    (Errorf "failed to start the app: " e).Unwrap = some e ∧
    Errorf "failed to start the app: " e ≠ Canceled ∧
    (execute cfg (evs ++ Event.start (StartResult.failed e) :: post)).startCalls =
      [commandArgs cfg.getenv cfg.userCmd] ∧
    (execute cfg (evs ++ Event.start (StartResult.failed e) :: post)).waitCalls = 0 ∧
    (execute cfg (evs ++ Event.start (StartResult.failed e) :: post)).hookCalls = 0 := by
  have hreach := reachable_execute cfg evs
  have hproc : (execute cfg evs).proc = none := by
    cases hp : (execute cfg evs).proc with
    | none => rfl
    | some p => exact absurd hpc (hreach.procSome p hp).2.2
  obtain ⟨hstep, hres⟩ := step_start_failed cfg (execute cfg evs) e hpc
  have hafter := exec_after_return cfg post _ _ hres
  rw [execute_append, exec_cons]
  refine ⟨exec_result cfg post _ _ hres, rfl, rfl, ?_, ?_, ?_, ?_⟩
  · intro h; simp [Canceled, Errorf] at h
  · rw [hafter.2.2.2.2, hstep]
    simp [hreach.starts, hpc]
  · rw [hafter.2.1, hstep]
    exact (hreach.procNone hproc).1
  · rw [hafter.2.2.1, hstep]
    exact (hreach.procNone hproc).2.1

theorem run_start_failure_witness :
    (execute demoConfig [Event.hostSignal Signal.SIGINT, Event.listen]).ctxDone = true ∧
    (execute demoConfig
      ([Event.hostSignal Signal.SIGINT, Event.listen] ++
        Event.start (StartResult.failed Canceled) :: [Event.watch, Event.postWait])).result =
      some (some (Errorf "failed to start the app: " Canceled)) :=
  ⟨rfl,
   (run_start_failure demoConfig [Event.hostSignal Signal.SIGINT, Event.listen]
      [Event.watch, Event.postWait] Canceled rfl).1⟩

/-- C10: the outcome of `run` follows a fixed priority.  A failed start decides it
first, whatever the context.  Otherwise the post-wait check decides it: the cancellation
error when the context is done, else the wrapped wait error, else nil.  Cancellation is
looked at only after `cmd.Wait` has returned: a schedule in which it has not returned
never yields the cancellation error.  The sequential function `run` has exactly this
priority and gives the result of every execution.  And there is an execution in which the child exits
with status zero without being interrupted, a signal then cancels the context, and `run`
returns the cancellation error instead of nil. -/
theorem run_outcome_priority :
    (∀ (cfg : Config) (evs : List Event) (e : GoError),
      (execute cfg evs).pc = Pc.beforeStart →
      (execute cfg (evs ++ [Event.start (StartResult.failed e)])).result =
        some (some (Errorf "failed to start the app: " e))) ∧
    (∀ (cfg : Config) (evs : List Event) (w : Option GoError),
      (execute cfg evs).pc = Pc.waitDone w →
      (execute cfg (evs ++ [Event.postWait])).result =
        some (if (execute cfg evs).ctxDone = true then some Canceled
              else match w with
                | some e =>
                  some (Errorf "unexpected error while waiting for the app to exit: " e)
                | none => none)) ∧
    (∀ (cfg : Config) (evs : List Event),
      evs.all (fun ev => !ev.isWaitReturn) = true →
      (execute cfg evs).result ≠ some (some Canceled)) ∧
    (∀ (startErr waitErr : Option GoError) (done : Bool),
      run startErr waitErr done =
        match startErr with
        | some e => some (Errorf "failed to start the app: " e)
        | none =>
          if done = true then some Canceled
          else match waitErr with
            | some e =>
              some (Errorf "unexpected error while waiting for the app to exit: " e)
            | none => none) ∧
    (∀ (cfg : Config) (evs : List Event) (e : GoError) (w : Option GoError),
      ((execute cfg evs).pc = Pc.beforeStart →
        (execute cfg (evs ++ [Event.start (StartResult.failed e)])).result =
          some (run (some e) w (execute cfg evs).ctxDone)) ∧
      ((execute cfg evs).pc = Pc.waitDone w →
        (execute cfg (evs ++ [Event.postWait])).result =
          some (run none w (execute cfg evs).ctxDone))) ∧
    (∃ (pre post : List Event),
      (execute demoConfig pre).pc = Pc.waitDone none ∧
      (execute demoConfig pre).ctxDone = false ∧
      (execute demoConfig (pre ++ post)).hookCalls = 0 ∧
      (execute demoConfig (pre ++ post)).sent = [] ∧
      (execute demoConfig (pre ++ post)).result = some (some Canceled)) := by
  refine ⟨?_, ?_, ?_, ?_, ?_, ?_⟩
  · intro cfg evs e hpc
    rw [execute_append, exec_cons, exec_nil]
    exact (step_start_failed cfg _ e hpc).2
  · intro cfg evs w hpc
    rw [execute_append, exec_cons, exec_nil, step_waitDone cfg _ _ w hpc]
    cases hd : (execute cfg evs).ctxDone <;> simp [State.result, afterWait, ctxErr]
  · intro cfg evs hall
    have key := exec_induction_on cfg
      (fun s => s.result ≠ some (some Canceled) ∧ ∀ w, s.pc ≠ Pc.waitDone w)
      (fun ev => !ev.isWaitReturn)
      (fun s ev hev hs => by
        cases hpc : s.pc with
        | beforeStart =>
          rw [step_beforeStart cfg s ev hpc]
          cases ev with
          | start r => cases r <;> simp [State.result, Errorf, Canceled]
          | _ => simp [State.result, hpc]
        | inWait =>
          rw [step_inWait cfg s ev hpc]
          cases ev with
          | waitReturn err => simp [Event.isWaitReturn] at hev
          | _ => simp [State.result, hpc]
        | waitDone w => exact absurd hpc (hs.2 w)
        | returned r =>
          have h1 := hs.1
          simp only [State.result, hpc] at h1
          rw [step_returned cfg s ev r hpc]
          cases ev <;> simp [State.result, hpc] <;> exact fun h => h1 (by rw [h])
        | exited r => rw [step_exited cfg s ev r hpc]; exact hs)
      evs State.initial hall ⟨by simp [State.result, State.initial], by simp [State.initial]⟩
    exact key.1
  · intro startErr waitErr done
    cases startErr <;> cases done <;> cases waitErr <;> rfl
  · intro cfg evs e w
    constructor
    · intro hpc
      rw [execute_append, exec_cons, exec_nil]
      exact (step_start_failed cfg _ e hpc).2
    · intro hpc
      rw [execute_append, exec_cons, exec_nil, step_waitDone cfg _ _ w hpc]
      rfl
  · exact ⟨[Event.start (StartResult.spawned 7), Event.waitReturn none],
      [Event.hostSignal Signal.SIGTERM, Event.listen, Event.postWait],
      rfl, rfl, rfl, rfl, rfl⟩

/-! ## Natural completion -/

theorem step_hostSignal (cfg : Config) (st : State) (sig : Signal)
    (h : st.pc.isExited = false) :
    step cfg st (Event.hostSignal sig) = { st with signalChan := notify st.signalChan sig } := by
  cases hpc : st.pc <;> simp [hpc, Pc.isExited] at h <;> simp [step, hpc]

theorem step_listen (cfg : Config) (st : State) (h : st.pc.isExited = false) :
    step cfg st Event.listen = listenStep st := by
  cases hpc : st.pc <;> simp [hpc, Pc.isExited] at h <;> simp [step, hpc]

theorem step_of_isExited (cfg : Config) (st : State) (ev : Event)
    (h : st.pc.isExited = true) : step cfg st ev = st := by
  cases hpc : st.pc <;> simp [hpc, Pc.isExited] at h
  exact step_exited cfg st ev _ hpc

theorem exec_of_isExited (cfg : Config) (evs : List Event) (st : State)
    (h : st.pc.isExited = true) : exec cfg st evs = st := by
  cases hpc : st.pc <;> simp [hpc, Pc.isExited] at h
  exact exec_exited cfg evs st _ hpc

/-- While no host signal has been delivered the channel is empty, the listener is
blocked, the cancel hook has not run, and the context is live until `main` returns. -/
theorem quiet_execute (cfg : Config) (evs : List Event)
    (hq : evs.all (fun ev => !ev.isSignal) = true) :
    (execute cfg evs).signalChan = [] ∧ (execute cfg evs).received = none ∧
    (execute cfg evs).cancelCalls = 0 ∧ (execute cfg evs).hookCalls = 0 ∧
    (execute cfg evs).sent = [] ∧
    ((execute cfg evs).ctxDone = true → (execute cfg evs).pc.isExited = true) := by
  exact exec_induction_on cfg
    (fun s => s.signalChan = [] ∧ s.received = none ∧ s.cancelCalls = 0 ∧ s.hookCalls = 0 ∧
      s.sent = [] ∧ (s.ctxDone = true → s.pc.isExited = true))
    (fun ev => !ev.isSignal)
    (fun s ev hev hs => by
      obtain ⟨h1, h2, h3, h4, h5, h6⟩ := hs
      have hl : listenStep s = s := listenStep_eq_self s (Or.inr h1)
      cases hpc : s.pc with
      | beforeStart =>
        rw [step_beforeStart cfg s ev hpc]
        have hd : s.ctxDone = false := by
          cases hc : s.ctxDone with
          | false => rfl
          | true => have := h6 hc; simp [hpc, Pc.isExited] at this
        cases ev with
        | start r => cases r <;> simp [h1, h2, h3, h4, h5, hd]
        | hostSignal sig => simp [Event.isSignal] at hev
        | listen => simp only [hl]; exact ⟨h1, h2, h3, h4, h5, h6⟩
        | _ => exact ⟨h1, h2, h3, h4, h5, h6⟩
      | inWait =>
        rw [step_inWait cfg s ev hpc]
        have hd : s.ctxDone = false := by
          cases hc : s.ctxDone with
          | false => rfl
          | true => have := h6 hc; simp [hpc, Pc.isExited] at this
        cases ev with
        | hostSignal sig => simp [Event.isSignal] at hev
        | listen => simp only [hl]; exact ⟨h1, h2, h3, h4, h5, h6⟩
        | watch =>
          have hw : watchStep cfg s = s := by
            unfold watchStep
            split
            · simp [hd]
            · rfl
          simp only [hw]; exact ⟨h1, h2, h3, h4, h5, h6⟩
        | waitReturn err => simp [h1, h2, h3, h4, h5, hd]
        | _ => exact ⟨h1, h2, h3, h4, h5, h6⟩
      | waitDone w =>
        rw [step_waitDone cfg s ev w hpc]
        have hd : s.ctxDone = false := by
          cases hc : s.ctxDone with
          | false => rfl
          | true => have := h6 hc; simp [hpc, Pc.isExited] at this
        cases ev with
        | hostSignal sig => simp [Event.isSignal] at hev
        | listen => simp only [hl]; exact ⟨h1, h2, h3, h4, h5, h6⟩
        | postWait => simp [h1, h2, h3, h4, h5, hd]
        | _ => exact ⟨h1, h2, h3, h4, h5, h6⟩
      | returned r =>
        rw [step_returned cfg s ev r hpc]
        cases ev with
        | hostSignal sig => simp [Event.isSignal] at hev
        | listen => simp only [hl]; exact ⟨h1, h2, h3, h4, h5, h6⟩
        | mainReturn => simp [h1, h2, h3, h4, h5, Pc.isExited]
        | _ => exact ⟨h1, h2, h3, h4, h5, h6⟩
      | exited r =>
        rw [step_exited cfg s ev r hpc]; exact ⟨h1, h2, h3, h4, h5, h6⟩)
    evs State.initial hq
    ⟨rfl, rfl, rfl, rfl, rfl, by simp [State.initial]⟩

/-- Once `cmd.Wait` has returned the cancel hook is not called any more. -/
theorem exec_after_wait (cfg : Config) (evs : List Event) (st : State)
    (h1 : st.pc ≠ Pc.beforeStart) (h2 : st.pc ≠ Pc.inWait) :
    (exec cfg st evs).hookCalls = st.hookCalls ∧ (exec cfg st evs).sent = st.sent := by
  have key := exec_induction cfg
    (fun s => (s.pc ≠ Pc.beforeStart ∧ s.pc ≠ Pc.inWait) ∧
      s.hookCalls = st.hookCalls ∧ s.sent = st.sent)
    (fun s ev hs => by
      cases hpc : s.pc with
      | beforeStart => exact absurd hpc hs.1.1
      | inWait => exact absurd hpc hs.1.2
      | waitDone w =>
        rw [step_waitDone cfg s ev w hpc]
        cases ev <;> simp [hpc, hs.2]
      | returned r =>
        rw [step_returned cfg s ev r hpc]
        cases ev <;> simp [hpc, hs.2]
      | exited r => rw [step_exited cfg s ev r hpc]; exact hs)
    evs st ⟨⟨h1, h2⟩, rfl, rfl⟩
  exact key.2

/-- A child that exited successfully is reported as a success as long as the context is
live. -/
theorem exec_success_while_live (cfg : Config) (evs : List Event) (st : State)
    (hpc : st.pc = Pc.waitDone none ∨ st.pc = Pc.returned none)
    (hlive : (exec cfg st evs).ctxDone = false) :
    (exec cfg st evs).pc = Pc.waitDone none ∨ (exec cfg st evs).pc = Pc.returned none := by
  have key := exec_induction cfg
    (fun s => s.ctxDone = false → (s.pc = Pc.waitDone none ∨ s.pc = Pc.returned none))
    (fun s ev hs hd => by
      have hd0 : s.ctxDone = false := by
        cases hc : s.ctxDone with
        | false => rfl
        | true => rw [step_ctxDone cfg s ev hc] at hd; cases hd
      rcases hs hd0 with hpc | hpc
      · rw [step_waitDone cfg s ev none hpc]
        cases ev <;> simp [hpc, hd0, afterWait]
      · rw [step_returned cfg s ev none hpc] at hd ⊢
        cases ev <;> simp [hpc] at hd ⊢)
    evs st (fun _ => hpc)
  exact key hlive

/-- C2, as amended: when the spawn succeeded and the child exits successfully
(`cmd.Wait` returns nil) before any termination signal is delivered, the cancel hook is
never invoked and no interrupt is ever sent, whatever happens afterwards; and `run`
returns nil provided the context is still live when `run` performs its post-wait
check. -/
theorem success_before_signal (cfg : Config) (pre mid post : List Event)
    (hquiet : pre.all (fun ev => !ev.isSignal) = true)
    (hrun : (execute cfg pre).pc = Pc.inWait)
    (hlive : (execute cfg (pre ++ Event.waitReturn none :: mid)).ctxDone = false) :
    (execute cfg (pre ++ Event.waitReturn none :: (mid ++ Event.postWait :: post))).result =
      some none ∧
    (∀ later, (execute cfg (pre ++ Event.waitReturn none :: later)).hookCalls = 0 ∧
      (execute cfg (pre ++ Event.waitReturn none :: later)).sent = []) := by
  have hq := quiet_execute cfg pre hquiet
  have hstep : step cfg (execute cfg pre) (Event.waitReturn none) =
      { execute cfg pre with pc := Pc.waitDone none } := by
    rw [step_inWait cfg _ _ hrun]
  constructor
  · rw [execute_append, exec_cons, exec_append, exec_cons]
    rw [execute_append, exec_cons] at hlive
    have hmid := exec_success_while_live cfg mid _ (Or.inl (by rw [hstep])) hlive
    apply exec_result
    rcases hmid with hpc | hpc
    · rw [step_waitDone cfg _ _ none hpc]
      simp [State.result, hlive, afterWait]
    · rw [step_returned cfg _ _ none hpc]
      simp [State.result, hpc]
  · intro later
    rw [execute_append, exec_cons]
    have := exec_after_wait cfg later (step cfg (execute cfg pre) (Event.waitReturn none))
      (by rw [hstep]; simp) (by rw [hstep]; simp)
    rw [this.1, this.2, hstep]
    exact ⟨hq.2.2.2.1, hq.2.2.2.2.1⟩

theorem success_before_signal_witness :
    (execute demoConfig
      ([Event.start (StartResult.spawned 7)] ++ Event.waitReturn none ::
        ([Event.watch] ++ Event.postWait ::
          [Event.hostSignal Signal.SIGINT, Event.listen, Event.mainReturn]))).result =
      some none :=
  (success_before_signal demoConfig [Event.start (StartResult.spawned 7)] [Event.watch]
    [Event.hostSignal Signal.SIGINT, Event.listen, Event.mainReturn] rfl rfl rfl).1

/-- C2, as stated, fails: the child is spawned, no signal has been delivered while it
runs, it exits successfully (`cmd.Wait` returns nil), a termination signal is then
delivered and consumed before the post-wait check, and `run` returns the cancellation
error, not nil.  So it is not true that a successful exit before any signal always makes
`run` return nil. -/
theorem success_before_signal_counterexample :
    [Event.start (StartResult.spawned 7)].all (fun ev => !ev.isSignal) = true ∧
    (execute demoConfig [Event.start (StartResult.spawned 7)]).pc = Pc.inWait ∧
    (execute demoConfig
      ([Event.start (StartResult.spawned 7)] ++ Event.waitReturn none ::
        [Event.hostSignal Signal.SIGINT, Event.listen, Event.postWait])).result =
      some (some Canceled) ∧
    ¬ (∀ (cfg : Config) (pre post : List Event) (r : Option GoError),
        pre.all (fun ev => !ev.isSignal) = true →
        (execute cfg pre).pc = Pc.inWait →
        (execute cfg (pre ++ Event.waitReturn none :: post)).result = some r →
        r = none) := by
  refine ⟨rfl, rfl, rfl, ?_⟩
  intro h
  have := h demoConfig [Event.start (StartResult.spawned 7)]
    [Event.hostSignal Signal.SIGINT, Event.listen, Event.postWait] (some Canceled)
    rfl rfl rfl
  cases this

/-! ## Cancellation -/

theorem notify_ne_nil (chan : List Signal) (sig : Signal) : notify chan sig ≠ [] := by
  unfold notify signalChanCap
  split
  · simp
  · rename_i h
    intro hc
    rw [hc] at h
    simp at h

theorem notify_nil (sig : Signal) : notify [] sig = [sig] := rfl

/-- A full channel drops the signal. -/
theorem notify_full (chan : List Signal) (sig : Signal) (h : chan ≠ []) :
    notify chan sig = chan := by
  unfold notify signalChanCap
  cases chan with
  | nil => exact absurd rfl h
  | cons a rest => simp

/-- A pending or consumed signal stays so: the channel holds a signal or the context is
cancelled. -/
theorem step_pending (cfg : Config) (st : State) (ev : Event)
    (h : st.signalChan ≠ [] ∨ st.ctxDone = true) :
    (step cfg st ev).signalChan ≠ [] ∨ (step cfg st ev).ctxDone = true := by
  rcases h with h | h
  · have hlisten : (listenStep st).signalChan ≠ [] ∨ (listenStep st).ctxDone = true := by
      rcases listenStep_cases st with he | ⟨sig, rest, _, _, he⟩
      · rw [he]; exact Or.inl h
      · rw [he]; exact Or.inr rfl
    have hnot : ∀ sig, notify st.signalChan sig ≠ [] := fun sig => notify_ne_nil _ sig
    cases hpc : st.pc with
    | beforeStart =>
      rw [step_beforeStart cfg st ev hpc]
      cases ev with
      | start r => cases r <;> exact Or.inl h
      | hostSignal sig => exact Or.inl (hnot sig)
      | listen => exact hlisten
      | _ => exact Or.inl h
    | inWait =>
      rw [step_inWait cfg st ev hpc]
      cases ev with
      | hostSignal sig => exact Or.inl (hnot sig)
      | listen => exact hlisten
      | watch => simp only [watchStep_signalChan]; exact Or.inl h
      | _ => exact Or.inl h
    | waitDone w =>
      rw [step_waitDone cfg st ev w hpc]
      cases ev with
      | hostSignal sig => exact Or.inl (hnot sig)
      | listen => exact hlisten
      | _ => exact Or.inl h
    | returned r =>
      rw [step_returned cfg st ev r hpc]
      cases ev with
      | hostSignal sig => exact Or.inl (hnot sig)
      | listen => exact hlisten
      | mainReturn => exact Or.inl h
      | _ => exact Or.inl h
    | exited r => rw [step_exited cfg st ev r hpc]; exact Or.inl h
  · exact Or.inr (step_ctxDone cfg st ev h)

theorem exec_pending (cfg : Config) (evs : List Event) (st : State)
    (h : st.signalChan ≠ [] ∨ st.ctxDone = true) :
    (exec cfg st evs).signalChan ≠ [] ∨ (exec cfg st evs).ctxDone = true :=
  exec_induction cfg (fun s => s.signalChan ≠ [] ∨ s.ctxDone = true)
    (fun s ev hs => step_pending cfg s ev hs) evs st h

/-- The listener, once scheduled with a signal pending, cancels the context. -/
theorem listenStep_cancels (st : State)
    (hrecv : st.received ≠ none → st.ctxDone = true)
    (h : st.signalChan ≠ [] ∨ st.ctxDone = true) :
    (listenStep st).ctxDone = true := by
  cases hd : st.ctxDone with
  | true => exact listenStep_ctxDone st hd
  | false =>
    have hchan : st.signalChan ≠ [] := by
      rcases h with h | h
      · exact h
      · rw [hd] at h; cases h
    have hnone : st.received = none := by
      cases hr : st.received with
      | none => rfl
      | some s =>
        have := hrecv (by simp [hr])
        rw [hd] at this; cases this
    cases hc : st.signalChan with
    | nil => exact absurd hc hchan
    | cons sig rest => rw [listenStep_receive st sig rest hnone hc]

/-- The process cannot have ended at a moment after which the main flow is still inside
`cmd.Wait`. -/
theorem not_exited_of_later_inWait (cfg : Config) (evs : List Event) (st : State)
    (h : (exec cfg st evs).pc = Pc.inWait) : st.pc.isExited = false := by
  cases he : st.pc.isExited with
  | false => rfl
  | true =>
    rw [exec_of_isExited cfg evs st he] at h
    simp [h, Pc.isExited] at he

/-- After the interrupt has been sent, nothing more is sent. -/
theorem exec_after_interrupt (cfg : Config) (evs : List Event) (st : State) (p : Process)
    (hreach : Reachable cfg st)
    (h : st.hookCalls = 1 ∧ st.sent = [interruptOf p] ∧ st.proc = some p) :
    (exec cfg st evs).hookCalls = 1 ∧ (exec cfg st evs).sent = [interruptOf p] ∧
    (exec cfg st evs).proc = some p := by
  have key := exec_induction cfg
    (fun s => Reachable cfg s ∧ s.hookCalls = 1 ∧ s.sent = [interruptOf p] ∧ s.proc = some p)
    (fun s ev hs => by
      refine ⟨reachable_step cfg s ev hs.1, ?_⟩
      obtain ⟨hr, h1, h2, h3⟩ := hs
      cases hpc : s.pc with
      | beforeStart => exact absurd hpc (hr.procSome p h3).2.2
      | inWait =>
        rw [step_inWait cfg s ev hpc]
        cases ev with
        | watch =>
          rw [watchStep_inWait cfg s p hpc h3]
          simp [h1, h2, h3]
        | _ => simp [h1, h2, h3]
      | waitDone w =>
        rw [step_waitDone cfg s ev w hpc]
        cases ev <;> simp [h1, h2, h3]
      | returned r =>
        rw [step_returned cfg s ev r hpc]
        cases ev <;> simp [h1, h2, h3]
      | exited r => rw [step_exited cfg s ev r hpc]; exact ⟨h1, h2, h3⟩)
    evs st ⟨hreach, h⟩
  exact key.2

/-- The cancel hook runs at most once and at most one interrupt is sent. -/
theorem hook_at_most_once (cfg : Config) (st : State) (h : Reachable cfg st) :
    st.hookCalls ≤ 1 ∧ st.sent.length ≤ 1 := by
  rcases h.hook with ⟨h0, hs⟩ | ⟨h1, _, p, _, hs⟩
  · simp [h0, hs]
  · simp [h1, hs]

/-- C3, as amended: for every command and either host signal `s` that arrives while the
child is running, the supervisor sends at most one interrupt, and exactly one once the
listener goroutine and then the context watcher have run with the child still running;
no later event adds another.  The interrupt is `SIGINT` addressed to the negated process
group of the child, the group id being the pid of the child because the command is
configured with `Setpgid`, and the cancel hook is `interruptProcessTree` on
`cmd.Process.Pid` with `SIGINT`, whichever signal `s` was.  In every schedule at all,
the hook runs at most once and whatever has been sent is that one interrupt. -/
theorem interrupt_sent_exactly_once (cfg : Config) (pre b c d : List Event) (s : Signal)
    (hrun : (execute cfg pre).pc = Pc.inWait)
    (hstill : (execute cfg (pre ++ Event.hostSignal s :: (b ++ Event.listen :: c))).pc =
      Pc.inWait) :
    (∃ p, (execute cfg (pre ++ Event.hostSignal s ::
            (b ++ Event.listen :: (c ++ Event.watch :: d)))).proc = some p ∧
      p.Pgid = p.Pid ∧
      (execute cfg (pre ++ Event.hostSignal s ::
            (b ++ Event.listen :: (c ++ Event.watch :: d)))).sent =
        [{ target := -(p.Pgid : Int), sig := Signal.SIGINT }] ∧
      (execute cfg (pre ++ Event.hostSignal s ::
            (b ++ Event.listen :: (c ++ Event.watch :: d)))).hookCalls = 1) ∧
    (newCmd cfg.getenv cfg.userCmd).Setpgid = true ∧
    (∀ pid, (newCmd cfg.getenv cfg.userCmd).Cancel pid =
      interruptProcessTree pid Signal.SIGINT) ∧
    (∀ pgid sig, (interruptProcessTree pgid sig).1 = [{ target := -(pgid : Int), sig := sig }]) ∧
    (∀ evs, (execute cfg evs).hookCalls ≤ 1 ∧
      ((execute cfg evs).sent = [] ∨
        ∃ p, (execute cfg evs).proc = some p ∧
          (execute cfg evs).sent = [{ target := -(p.Pgid : Int), sig := Signal.SIGINT }])) := by
  refine ⟨?_, rfl, fun _ => rfl, fun _ _ => rfl, ?_⟩
  swap
  · intro evs
    have hr := reachable_execute cfg evs
    refine ⟨(hook_at_most_once cfg _ hr).1, ?_⟩
    rcases hr.hook with ⟨_, hs⟩ | ⟨_, _, p, hp, hs⟩
    · exact Or.inl hs
    · refine Or.inr ⟨p, hp, ?_⟩
      rw [hs, (hr.procSome p hp).1]; rfl
  -- the states along the schedule
  rw [execute_append, exec_cons, exec_append, exec_cons, exec_append, exec_cons]
  rw [execute_append, exec_cons, exec_append, exec_cons] at hstill
  have hr0 := reachable_execute cfg pre
  have he0 : (execute cfg pre).pc.isExited = false := by simp [hrun, Pc.isExited]
  -- the signal is delivered into the channel
  have hs1 := step_hostSignal cfg (execute cfg pre) s he0
  have hr1 := reachable_step cfg _ (Event.hostSignal s) hr0
  have hp1 : (step cfg (execute cfg pre) (Event.hostSignal s)).signalChan ≠ [] ∨
      (step cfg (execute cfg pre) (Event.hostSignal s)).ctxDone = true := by
    rw [hs1]; exact Or.inl (notify_ne_nil _ s)
  -- it is still pending or consumed when the listener runs
  have hr2 := reachable_exec cfg b _ hr1
  have hp2 := exec_pending cfg b _ hp1
  have he2 := not_exited_of_later_inWait cfg (Event.listen :: c) _ hstill
  have hr3 := reachable_step cfg _ Event.listen hr2
  have hd3 : (step cfg (exec cfg (step cfg (execute cfg pre) (Event.hostSignal s)) b)
      Event.listen).ctxDone = true := by
    rw [step_listen cfg _ he2]
    exact listenStep_cancels _ hr2.recv hp2
  -- the context is cancelled when the watcher runs
  have hr4 := reachable_exec cfg c _ hr3
  have hd4 := exec_ctxDone cfg c _ hd3
  cases hp : (exec cfg (step cfg (exec cfg (step cfg (execute cfg pre)
      (Event.hostSignal s)) b) Event.listen) c).proc with
  | none => exact absurd hstill (hr4.procNone hp).2.2.1
  | some p =>
    have hr5 := reachable_step cfg _ Event.watch hr4
    have h5 : (step cfg (exec cfg (step cfg (exec cfg (step cfg (execute cfg pre)
        (Event.hostSignal s)) b) Event.listen) c) Event.watch).hookCalls = 1 ∧
        (step cfg (exec cfg (step cfg (exec cfg (step cfg (execute cfg pre)
        (Event.hostSignal s)) b) Event.listen) c) Event.watch).sent = [interruptOf p] ∧
        (step cfg (exec cfg (step cfg (exec cfg (step cfg (execute cfg pre)
        (Event.hostSignal s)) b) Event.listen) c) Event.watch).proc = some p := by
      rw [step_inWait cfg _ _ hstill]
      simp only []
      rw [watchStep_inWait cfg _ p hstill hp]
      rcases hr4.hook with ⟨h0, hsent⟩ | ⟨h1, _, q, hq, hsent⟩
      · simp [hd4, h0, hsent, hp, interruptOf]
      · rw [hp] at hq
        cases hq
        simp [h1, hsent, hp]
    have h6 := exec_after_interrupt cfg d _ p hr5 h5
    have hpg := (hr4.procSome p hp).1
    refine ⟨p, h6.2.2, hpg, ?_, h6.1⟩
    rw [h6.2.1, hpg]; rfl

theorem interrupt_sent_exactly_once_witness :
    (execute demoConfig
      ([Event.start (StartResult.spawned 7)] ++ Event.hostSignal Signal.SIGTERM ::
        ([] ++ Event.listen :: ([] ++ Event.watch ::
          [Event.hostSignal Signal.SIGINT, Event.listen, Event.watch,
           Event.waitReturn none, Event.postWait])))).sent =
      [{ target := -7, sig := Signal.SIGINT }] := by
  obtain ⟨p, hp, hpg, hsent, _⟩ :=
    (interrupt_sent_exactly_once demoConfig [Event.start (StartResult.spawned 7)] [] []
      [Event.hostSignal Signal.SIGINT, Event.listen, Event.watch,
       Event.waitReturn none, Event.postWait] Signal.SIGTERM rfl rfl).1
  have h7 : p = { Pid := 7, Pgid := 7 } := by
    have : some p = some ({ Pid := 7, Pgid := 7 } : Process) := by rw [← hp]; rfl
    exact Option.some.inj this
  rw [hsent, h7]; rfl

/-- C3, as stated, fails: the child is running when `SIGTERM` arrives, it exits on its
own before the listener goroutine is scheduled, `run` returns nil and `main` returns; no
interrupt has been sent and the cancel hook has not run.  So a host signal that arrives
while the child is running does not always lead to exactly one interrupt. -/
theorem interrupt_sent_exactly_once_counterexample :
    (execute demoConfig [Event.start (StartResult.spawned 7)]).pc = Pc.inWait ∧
    (execute demoConfig
      ([Event.start (StartResult.spawned 7)] ++ Event.hostSignal Signal.SIGTERM ::
        [Event.waitReturn none, Event.postWait, Event.mainReturn])).sent = [] ∧
    (execute demoConfig
      ([Event.start (StartResult.spawned 7)] ++ Event.hostSignal Signal.SIGTERM ::
        [Event.waitReturn none, Event.postWait, Event.mainReturn])).hookCalls = 0 ∧
    (execute demoConfig
      ([Event.start (StartResult.spawned 7)] ++ Event.hostSignal Signal.SIGTERM ::
        [Event.waitReturn none, Event.postWait, Event.mainReturn])).pc = Pc.exited none ∧
    ¬ (∀ (cfg : Config) (pre post : List Event) (s : Signal),
        (execute cfg pre).pc = Pc.inWait →
        (execute cfg (pre ++ Event.hostSignal s :: post)).pc.isExited = true →
        (execute cfg (pre ++ Event.hostSignal s :: post)).sent.length = 1) := by
  refine ⟨rfl, rfl, rfl, rfl, ?_⟩
  intro h
  have := h demoConfig [Event.start (StartResult.spawned 7)]
    [Event.waitReturn none, Event.postWait, Event.mainReturn] Signal.SIGTERM rfl rfl
  cases this

/-! ## Idempotence of cancellation -/

/-- Only the delivery of a signal and the listener touch the channel and the record of
the listener. -/
theorem step_frame (cfg : Config) (st : State) (ev : Event)
    (h1 : ev.isSignal = false) (h2 : ev ≠ Event.listen) :
    (step cfg st ev).signalChan = st.signalChan ∧ (step cfg st ev).received = st.received ∧
    (step cfg st ev).cancelCalls = st.cancelCalls := by
  cases hpc : st.pc with
  | beforeStart =>
    rw [step_beforeStart cfg st ev hpc]
    cases ev with
    | start r => cases r <;> exact ⟨rfl, rfl, rfl⟩
    | hostSignal sig => simp [Event.isSignal] at h1
    | listen => exact absurd rfl h2
    | _ => exact ⟨rfl, rfl, rfl⟩
  | inWait =>
    rw [step_inWait cfg st ev hpc]
    cases ev with
    | hostSignal sig => simp [Event.isSignal] at h1
    | listen => exact absurd rfl h2
    | watch => simp
    | _ => exact ⟨rfl, rfl, rfl⟩
  | waitDone w =>
    rw [step_waitDone cfg st ev w hpc]
    cases ev with
    | hostSignal sig => simp [Event.isSignal] at h1
    | listen => exact absurd rfl h2
    | _ => exact ⟨rfl, rfl, rfl⟩
  | returned r =>
    rw [step_returned cfg st ev r hpc]
    cases ev with
    | hostSignal sig => simp [Event.isSignal] at h1
    | listen => exact absurd rfl h2
    | _ => exact ⟨rfl, rfl, rfl⟩
  | exited r => rw [step_exited cfg st ev r hpc]; exact ⟨rfl, rfl, rfl⟩

/-- Steps other than a delivery and the listener do not read the channel. -/
theorem step_setChan (cfg : Config) (st : State) (ev : Event) (chan : List Signal)
    (h1 : ev.isSignal = false) (h2 : ev ≠ Event.listen) :
    step cfg { st with signalChan := chan } ev =
      { step cfg st ev with signalChan := chan } := by
  obtain ⟨c1, r1, n1, d1, pc, q1, a1, w1, k1, x1⟩ := st
  cases ev with
  | hostSignal sig => simp [Event.isSignal] at h1
  | listen => exact absurd rfl h2
  | start r => cases pc <;> cases r <;> rfl
  | watch =>
    cases pc <;> try rfl
    cases q1 with
    | none => rfl
    | some p =>
      simp only [step, watchStep]
      split <;> rfl
  | waitReturn err => cases pc <;> rfl
  | postWait => cases pc <;> rfl
  | mainReturn => cases pc <;> rfl

/-- States with the same observable part differ in the channel only. -/
theorem eq_setChan_of_observable (s t : State) (h : s.observable = t.observable) :
    t = { s with signalChan := t.signalChan } := by
  obtain ⟨c1, r1, n1, d1, p1, q1, a1, w1, k1, x1⟩ := s
  obtain ⟨c2, r2, n2, d2, p2, q2, a2, w2, k2, x2⟩ := t
  simp [State.observable] at h
  obtain ⟨h1, h2, h3, h4, h5, h6, h7, h8, h9⟩ := h
  subst h1 h2 h3 h4 h5 h6 h7 h8 h9
  rfl

theorem observable_setChan (st : State) (chan : List Signal) :
    State.observable { st with signalChan := chan } = st.observable := rfl

/-- Delivering one more signal to a state keeps it the same but for the channel. -/
theorem sameButChan_signal (cfg : Config) (s t : State) (sig : Signal)
    (h : SameButChan s t) : SameButChan (step cfg s (Event.hostSignal sig)) t := by
  obtain ⟨hobs, hcase⟩ := h
  cases he : s.pc.isExited with
  | true => rw [step_of_isExited cfg s _ he]; exact ⟨hobs, hcase⟩
  | false =>
    rw [step_hostSignal cfg s sig he]
    refine ⟨hobs, ?_⟩
    rcases hcase with hx | hr | ⟨hc, hne⟩
    · rw [he] at hx; cases hx
    · exact Or.inr (Or.inl hr)
    · refine Or.inr (Or.inr ?_)
      simp only []
      rw [notify_full _ sig hne]
      exact ⟨hc, hne⟩

/-- The same step taken in two states that are the same but for the channel. -/
theorem sameButChan_step (cfg : Config) (s t : State) (ev : Event)
    (hev : ev.isSignal = false) (h : SameButChan s t) :
    SameButChan (step cfg s ev) (step cfg t ev) := by
  obtain ⟨hobs, hcase⟩ := h
  have ht := eq_setChan_of_observable s t hobs
  have hpc : t.pc = s.pc := by rw [ht]
  have hrecv : t.received = s.received := by rw [ht]
  cases he : s.pc.isExited with
  | true =>
    have he2 : t.pc.isExited = true := by rw [hpc]; exact he
    rw [step_of_isExited cfg s _ he, step_of_isExited cfg t _ he2]
    exact ⟨hobs, Or.inl he⟩
  | false =>
    have he2 : t.pc.isExited = false := by rw [hpc]; exact he
    by_cases hl : ev = Event.listen
    · subst hl
      rw [step_listen cfg s he, step_listen cfg t he2]
      rcases hcase with hx | hr | ⟨hc, hne⟩
      · rw [he] at hx; cases hx
      · rw [listenStep_eq_self s (Or.inl hr), listenStep_eq_self t (Or.inl (by rw [hrecv]; exact hr))]
        exact ⟨hobs, Or.inr (Or.inl hr)⟩
      · have hst : t = s := by rw [ht, ← hc]
        rw [hst]
        refine ⟨rfl, ?_⟩
        cases hr : s.received with
        | some x =>
          rw [listenStep_eq_self s (Or.inl (by simp [hr]))]
          exact Or.inr (Or.inl (by simp [hr]))
        | none =>
          cases hch : s.signalChan with
          | nil => exact absurd hch hne
          | cons sig rest =>
            rw [listenStep_receive s sig rest hr hch]
            exact Or.inr (Or.inl (by simp))
    · have hfs := step_frame cfg s ev hev hl
      have hft := step_frame cfg t ev hev hl
      have hstep : step cfg t ev = { step cfg s ev with signalChan := t.signalChan } := by
        conv_lhs => rw [ht]
        exact step_setChan cfg s ev t.signalChan hev hl
      refine ⟨?_, ?_⟩
      · rw [hstep]; rfl
      · rcases hcase with hx | hr | ⟨hc, hne⟩
        · rw [he] at hx; cases hx
        · exact Or.inr (Or.inl (by rw [hfs.2.1]; exact hr))
        · exact Or.inr (Or.inr ⟨by rw [hfs.1, hft.1]; exact hc, by rw [hfs.1]; exact hne⟩)

/-- Dropping the host signals of a schedule changes nothing that can be observed, when
the schedule starts with a signal already delivered. -/
theorem sameButChan_exec (cfg : Config) (evs : List Event) :
    ∀ s t : State, SameButChan s t →
      SameButChan (exec cfg s evs) (exec cfg t (dropSignals evs)) := by
  induction evs with
  | nil => intro s t h; exact h
  | cons ev evs ih =>
    intro s t h
    cases hev : ev.isSignal with
    | true =>
      have hd : dropSignals (ev :: evs) = dropSignals evs := by
        simp [dropSignals, hev]
      rw [hd, exec_cons]
      cases ev with
      | hostSignal sig => exact ih _ _ (sameButChan_signal cfg s t sig h)
      | _ => simp [Event.isSignal] at hev
    | false =>
      have hd : dropSignals (ev :: evs) = ev :: dropSignals evs := by
        simp [dropSignals, hev]
      rw [hd, exec_cons, exec_cons]
      exact ih _ _ (sameButChan_step cfg s t ev hev h)

/-- Every step does nothing, or delivers a signal, or runs the listener, or leaves the
channel and the listener alone. -/
theorem step_classify (cfg : Config) (st : State) (ev : Event) :
    step cfg st ev = st ∨
    (∃ s, step cfg st ev = { st with signalChan := notify st.signalChan s }) ∨
    step cfg st ev = listenStep st ∨
    ((step cfg st ev).signalChan = st.signalChan ∧ (step cfg st ev).received = st.received ∧
      (step cfg st ev).cancelCalls = st.cancelCalls) := by
  cases he : st.pc.isExited with
  | true => exact Or.inl (step_of_isExited cfg st _ he)
  | false =>
    cases ev with
    | hostSignal s => exact Or.inr (Or.inl ⟨s, step_hostSignal cfg st s he⟩)
    | listen => exact Or.inr (Or.inr (Or.inl (step_listen cfg st he)))
    | start r => exact Or.inr (Or.inr (Or.inr (step_frame cfg st _ rfl (by simp))))
    | watch => exact Or.inr (Or.inr (Or.inr (step_frame cfg st _ rfl (by simp))))
    | waitReturn err => exact Or.inr (Or.inr (Or.inr (step_frame cfg st _ rfl (by simp))))
    | postWait => exact Or.inr (Or.inr (Or.inr (step_frame cfg st _ rfl (by simp))))
    | mainReturn => exact Or.inr (Or.inr (Or.inr (step_frame cfg st _ rfl (by simp))))

/-- The listener has consumed signal `sig` and cancelled the context, once. -/
theorem step_consumed (cfg : Config) (st : State) (ev : Event) (sig : Signal)
    (h : st.received = some sig ∧ st.cancelCalls = 1 ∧ st.ctxDone = true) :
    (step cfg st ev).received = some sig ∧ (step cfg st ev).cancelCalls = 1 ∧
    (step cfg st ev).ctxDone = true := by
  have hd := step_ctxDone cfg st ev h.2.2
  rcases step_classify cfg st ev with he | ⟨s, he⟩ | he | hf
  · rw [he]; exact h
  · rw [he] at hd ⊢; exact ⟨h.1, h.2.1, hd⟩
  · rw [he, listenStep_eq_self st (Or.inl (by simp [h.1]))]; exact h
  · rw [hf.2.1, hf.2.2]; exact ⟨h.1, h.2.1, hd⟩

theorem exec_consumed (cfg : Config) (evs : List Event) (st : State) (sig : Signal)
    (h : st.received = some sig ∧ st.cancelCalls = 1 ∧ st.ctxDone = true) :
    (exec cfg st evs).received = some sig ∧ (exec cfg st evs).cancelCalls = 1 ∧
    (exec cfg st evs).ctxDone = true :=
  exec_induction cfg
    (fun s => s.received = some sig ∧ s.cancelCalls = 1 ∧ s.ctxDone = true)
    (fun s ev hs => step_consumed cfg s ev sig hs) evs st h

/-- Signal `sig` is the one pending in the channel, or the one the listener consumed. -/
theorem step_first_signal (cfg : Config) (st : State) (ev : Event) (sig : Signal)
    (h : (st.received = none ∧ st.signalChan = [sig] ∧ st.cancelCalls = 0) ∨
      (st.received = some sig ∧ st.cancelCalls = 1 ∧ st.ctxDone = true)) :
    ((step cfg st ev).received = none ∧ (step cfg st ev).signalChan = [sig] ∧
        (step cfg st ev).cancelCalls = 0) ∨
      ((step cfg st ev).received = some sig ∧ (step cfg st ev).cancelCalls = 1 ∧
        (step cfg st ev).ctxDone = true) := by
  rcases h with ⟨h1, h2, h3⟩ | h
  · rcases step_classify cfg st ev with he | ⟨s, he⟩ | he | hf
    · rw [he]; exact Or.inl ⟨h1, h2, h3⟩
    · rw [he]
      left
      refine ⟨h1, ?_, h3⟩
      simp only []
      rw [notify_full _ s (by rw [h2]; simp)]
      exact h2
    · rw [he, listenStep_receive st sig [] h1 h2]
      right
      exact ⟨rfl, by simp [h3], rfl⟩
    · left
      rw [hf.1, hf.2.1, hf.2.2]
      exact ⟨h1, h2, h3⟩
  · exact Or.inr (step_consumed cfg st ev sig h)

theorem exec_first_signal (cfg : Config) (evs : List Event) (st : State) (sig : Signal)
    (h : (st.received = none ∧ st.signalChan = [sig] ∧ st.cancelCalls = 0) ∨
      (st.received = some sig ∧ st.cancelCalls = 1 ∧ st.ctxDone = true)) :
    ((exec cfg st evs).received = none ∧ (exec cfg st evs).signalChan = [sig] ∧
        (exec cfg st evs).cancelCalls = 0) ∨
      ((exec cfg st evs).received = some sig ∧ (exec cfg st evs).cancelCalls = 1 ∧
        (exec cfg st evs).ctxDone = true) :=
  exec_induction cfg
    (fun s => (s.received = none ∧ s.signalChan = [sig] ∧ s.cancelCalls = 0) ∨
      (s.received = some sig ∧ s.cancelCalls = 1 ∧ s.ctxDone = true))
    (fun s ev hs => step_first_signal cfg s ev sig hs) evs st h

/-- C9, as amended: cancellation is idempotent and one-shot.  Take any schedule in which
a first host signal `s` is delivered, followed by anything, further signals (`SIGINT` or
`SIGTERM`) included.  Everything observable of the final state, the outcome of `run`
included, is what the same schedule without the later signals gives.  The listener has
consumed nothing, with no call of `cancel`, or it has consumed `s` alone, with exactly
one call of `cancel` and the context cancelled; the latter is the case as soon as the
listener goroutine is scheduled after the first signal while the supervisor is alive.
The cancel hook has run at most once, and a cancelled context stays cancelled whatever
happens next. -/
theorem cancellation_is_idempotent (cfg : Config) (a rest : List Event) (s : Signal)
    (hquiet : a.all (fun ev => !ev.isSignal) = true) :
    (execute cfg (a ++ Event.hostSignal s :: rest)).observable =
      (execute cfg (a ++ Event.hostSignal s :: dropSignals rest)).observable ∧
    (((execute cfg (a ++ Event.hostSignal s :: rest)).received = none ∧
        (execute cfg (a ++ Event.hostSignal s :: rest)).cancelCalls = 0) ∨
      ((execute cfg (a ++ Event.hostSignal s :: rest)).received = some s ∧
        (execute cfg (a ++ Event.hostSignal s :: rest)).cancelCalls = 1 ∧
        (execute cfg (a ++ Event.hostSignal s :: rest)).ctxDone = true)) ∧
    (execute cfg (a ++ Event.hostSignal s :: rest)).hookCalls ≤ 1 ∧
    (∀ b c, rest = b ++ Event.listen :: c →
      (execute cfg (a ++ Event.hostSignal s :: b)).pc.isExited = false →
      (execute cfg (a ++ Event.hostSignal s :: rest)).received = some s ∧
      (execute cfg (a ++ Event.hostSignal s :: rest)).cancelCalls = 1 ∧
      (execute cfg (a ++ Event.hostSignal s :: rest)).ctxDone = true) ∧
    (∀ more, (execute cfg (a ++ Event.hostSignal s :: rest)).ctxDone = true →
      (execute cfg ((a ++ Event.hostSignal s :: rest) ++ more)).ctxDone = true) := by
  have hq := quiet_execute cfg a hquiet
  have hbound := hook_at_most_once cfg _
    (reachable_execute cfg (a ++ Event.hostSignal s :: rest))
  -- what the delivery of the first signal does
  have hdeliver : (execute cfg a).pc.isExited = false →
      (step cfg (execute cfg a) (Event.hostSignal s)).received = none ∧
      (step cfg (execute cfg a) (Event.hostSignal s)).signalChan = [s] ∧
      (step cfg (execute cfg a) (Event.hostSignal s)).cancelCalls = 0 := by
    intro he0
    rw [step_hostSignal cfg _ s he0, hq.1, notify_nil]
    exact ⟨hq.2.1, rfl, hq.2.2.1⟩
  refine ⟨?_, ?_, hbound.1, ?_, ?_⟩
  · -- later signals change nothing observable
    have hsame : SameButChan (step cfg (execute cfg a) (Event.hostSignal s))
        (step cfg (execute cfg a) (Event.hostSignal s)) := by
      refine ⟨rfl, ?_⟩
      cases he : (execute cfg a).pc.isExited with
      | true => rw [step_of_isExited cfg _ _ he]; exact Or.inl he
      | false => exact Or.inr (Or.inr ⟨rfl, by rw [(hdeliver he).2.1]; simp⟩)
    have := (sameButChan_exec cfg rest _ _ hsame).1
    rw [execute_append, exec_cons, execute_append, exec_cons]
    exact this
  · -- the listener has consumed nothing, or the first signal alone
    rw [execute_append, exec_cons]
    cases he : (execute cfg a).pc.isExited with
    | true =>
      rw [step_of_isExited cfg _ _ he, exec_of_isExited cfg rest _ he]
      exact Or.inl ⟨hq.2.1, hq.2.2.1⟩
    | false =>
      rcases exec_first_signal cfg rest _ s (Or.inl (hdeliver he)) with ⟨hr, _, hn⟩ | h
      · exact Or.inl ⟨hr, hn⟩
      · exact Or.inr h
  · -- the listener, once scheduled while the supervisor is alive, cancels once
    intro b c hrest halive
    subst hrest
    rw [execute_append, exec_cons] at halive
    have he0 : (execute cfg a).pc.isExited = false := by
      cases he : (execute cfg a).pc.isExited with
      | false => rfl
      | true =>
        rw [step_of_isExited cfg _ _ he, exec_of_isExited cfg b _ he, he] at halive
        cases halive
    have h2 := exec_first_signal cfg b _ s (Or.inl (hdeliver he0))
    have h3 : (step cfg (exec cfg (step cfg (execute cfg a) (Event.hostSignal s)) b)
        Event.listen).received = some s ∧
        (step cfg (exec cfg (step cfg (execute cfg a) (Event.hostSignal s)) b)
        Event.listen).cancelCalls = 1 ∧
        (step cfg (exec cfg (step cfg (execute cfg a) (Event.hostSignal s)) b)
        Event.listen).ctxDone = true := by
      rcases h2 with ⟨hr, hc, hn⟩ | h2
      · rw [step_listen cfg _ halive, listenStep_receive _ s [] hr hc]
        exact ⟨rfl, by simp [hn], rfl⟩
      · exact step_consumed cfg _ _ s h2
    rw [execute_append, exec_cons, exec_append, exec_cons]
    exact exec_consumed cfg c _ s h3
  · -- a cancelled context stays cancelled
    intro more hd
    rw [execute_append]
    exact exec_ctxDone cfg more _ hd

theorem cancellation_is_idempotent_witness :
    (execute demoConfig
      ([Event.start (StartResult.spawned 7)] ++ Event.hostSignal Signal.SIGTERM ::
        [Event.hostSignal Signal.SIGINT, Event.listen, Event.hostSignal Signal.SIGINT,
         Event.listen, Event.watch, Event.hostSignal Signal.SIGTERM, Event.watch,
         Event.waitReturn none, Event.postWait])).received = some Signal.SIGTERM ∧
    (execute demoConfig
      ([Event.start (StartResult.spawned 7)] ++ Event.hostSignal Signal.SIGTERM ::
        [Event.hostSignal Signal.SIGINT, Event.listen, Event.hostSignal Signal.SIGINT,
         Event.listen, Event.watch, Event.hostSignal Signal.SIGTERM, Event.watch,
         Event.waitReturn none, Event.postWait])).cancelCalls = 1 :=
  have h := (cancellation_is_idempotent demoConfig [Event.start (StartResult.spawned 7)]
    [Event.hostSignal Signal.SIGINT, Event.listen, Event.hostSignal Signal.SIGINT,
     Event.listen, Event.watch, Event.hostSignal Signal.SIGTERM, Event.watch,
     Event.waitReturn none, Event.postWait]
    Signal.SIGTERM rfl).2.2.2.1
      [Event.hostSignal Signal.SIGINT]
      [Event.hostSignal Signal.SIGINT, Event.listen, Event.watch,
       Event.hostSignal Signal.SIGTERM, Event.watch, Event.waitReturn none, Event.postWait]
      rfl rfl
  ⟨h.1, h.2.1⟩

/-- C9, as stated, fails: two termination signals are delivered while the child runs,
the child exits on its own, `run` and then `main` return before the listener goroutine
is scheduled; the listener has consumed no signal and `cancel` has not been called by
it.  So a sequence of at least one host signal does not always make the listener call
`cancel` exactly once. -/
theorem cancellation_is_idempotent_counterexample :
    [Event.start (StartResult.spawned 7)].all (fun ev => !ev.isSignal) = true ∧
    (execute demoConfig
      ([Event.start (StartResult.spawned 7)] ++ Event.hostSignal Signal.SIGINT ::
        [Event.hostSignal Signal.SIGTERM, Event.waitReturn none, Event.postWait,
         Event.mainReturn, Event.listen])).cancelCalls = 0 ∧
    (execute demoConfig
      ([Event.start (StartResult.spawned 7)] ++ Event.hostSignal Signal.SIGINT ::
        [Event.hostSignal Signal.SIGTERM, Event.waitReturn none, Event.postWait,
         Event.mainReturn, Event.listen])).received = none ∧
    ¬ (∀ (cfg : Config) (a rest : List Event) (s : Signal),
        a.all (fun ev => !ev.isSignal) = true →
        (execute cfg (a ++ Event.hostSignal s :: rest)).pc.isExited = true →
        (execute cfg (a ++ Event.hostSignal s :: rest)).cancelCalls = 1) := by
  refine ⟨rfl, rfl, rfl, ?_⟩
  intro h
  have := h demoConfig [Event.start (StartResult.spawned 7)]
    [Event.hostSignal Signal.SIGTERM, Event.waitReturn none, Event.postWait,
     Event.mainReturn, Event.listen] Signal.SIGINT rfl rfl
  cases this

end CmdExit
